import Mathlib

/-!
Verification development for the miniclaw agent core.

Shallow embedding of:
 - the tool risk classifier (src/tools/risk.rs),
 - the agent loop: compaction, tool confirmation gate, tool execution,
   iteration cap (src/agent.rs),
 - the two streaming wire-format parsers (src/llm/anthropic.rs,
   src/llm/openai_compatible.rs).

External effects (the LLM backend and the tool router bodies) are modelled
as oracle functions; each invocation of the tool router is recorded in an
explicit trace so that non-execution is observable.  JSON parsing
(serde_json) is modelled by an executable recursive-descent parser over a
JSON value type; machine integers (u64) are modelled as Nat since none of
the embedded arithmetic can overflow at the modelled sizes.
-/

namespace Miniclaw

/-- Model of serde_json::Value. -/
inductive Json where
  | null : Json
  | bool : Bool → Json
  | num : Int → Json
  | str : String → Json
  | arr : List Json → Json
  | obj : List (String × Json) → Json

/-- Last-wins lookup, mirroring serde_json object maps where a later
duplicate key overwrites an earlier one. -/
def lookup_last (fields : List (String × Json)) (key : String) : Option Json :=
  fields.foldl (fun acc kv => if kv.1 = key then some kv.2 else acc) none

/-- Model of Value::get: Some for a present object key, None otherwise. -/
def Json.get : Json → String → Option Json
  | .obj fields, key => lookup_last fields key
  | _, _ => none

/-- Model of Value::index (args[k]): Null when missing or not an object. -/
def Json.getField (j : Json) (key : String) : Json :=
  (j.get key).getD Json.null

/-- Model of Value::as_str. -/
def Json.asStr : Json → Option String
  | .str s => some s
  | _ => none

/-- Model of Value::as_u64 (integers only; the embedded numbers are ints). -/
def Json.asNat : Json → Option Nat
  | .num n => if 0 ≤ n then some n.toNat else none
  | _ => none

/-- JSON whitespace. -/
def is_json_ws (c : Char) : Bool :=
  c = ' ' ∨ c = '\t' ∨ c = '\n' ∨ c = '\r'

def skip_ws (cs : List Char) : List Char := cs.dropWhile is_json_ws

/-- Strip a literal character-list from the front, None when it does not match. -/
def drop_front_match : List Char → List Char → Option (List Char)
  | [], l => some l
  | _ :: _, [] => none
  | p :: ps, c :: cs => if c = p then drop_front_match ps cs else none

def digit_val (c : Char) : Nat := c.toNat - '0'.toNat

def read_digits : List Char → Nat → Nat × List Char
  | [], acc => (acc, [])
  | c :: rest, acc =>
    if c.isDigit then read_digits rest (acc * 10 + digit_val c) else (acc, c :: rest)

/-- Integer literals (the only numerals the embedded payloads use). -/
def parse_number : List Char → Option (Json × List Char)
  | [] => none
  | '-' :: rest =>
    match rest with
    | c :: _ =>
      if c.isDigit then
        let p := read_digits rest 0
        some (.num (-(p.1 : Int)), p.2)
      else none
    | [] => none
  | c :: rest =>
    if c.isDigit then
      let p := read_digits (c :: rest) 0
      some (.num (p.1 : Int), p.2)
    else none

/-- JSON string escapes (the \u form is not needed by any embedded payload). -/
def decode_escape (c : Char) : Option Char :=
  if c = '"' then some '"'
  else if c = '\\' then some '\\'
  else if c = '/' then some '/'
  else if c = 'b' then some (Char.ofNat 8)
  else if c = 'f' then some (Char.ofNat 12)
  else if c = 'n' then some '\n'
  else if c = 'r' then some '\r'
  else if c = 't' then some '\t'
  else none

/-- Body of a JSON string after the opening quote; fuel-bounded. -/
def parse_string_aux : Nat → List Char → Option (List Char × List Char)
  | 0, _ => none
  | _ + 1, [] => none
  | fuel + 1, c :: rest =>
    if c = '"' then some ([], rest)
    else if c = '\\' then
      match rest with
      | [] => none
      | e :: rest2 =>
        match decode_escape e with
        | none => none
        | some ch =>
          match parse_string_aux fuel rest2 with
          | none => none
          | some (s, r) => some (ch :: s, r)
    else
      match parse_string_aux fuel rest with
      | none => none
      | some (s, r) => some (c :: s, r)

mutual

def parse_value : Nat → List Char → Option (Json × List Char)
  | 0, _ => none
  | fuel + 1, cs0 =>
    let cs := skip_ws cs0
    match cs with
    | [] => none
    | c :: rest =>
      if c = '\x7b' then
        let rest2 := skip_ws rest
        match rest2 with
        | '\x7d' :: r => some (.obj [], r)
        | _ =>
          match parse_members fuel rest2 with
          | some (fields, r) => some (.obj fields, r)
          | none => none
      else if c = '[' then
        let rest2 := skip_ws rest
        match rest2 with
        | ']' :: r => some (.arr [], r)
        | _ =>
          match parse_elems fuel rest2 with
          | some (elems, r) => some (.arr elems, r)
          | none => none
      else if c = '"' then
        match parse_string_aux rest.length rest with
        | some (sl, r) => some (.str (String.mk sl), r)
        | none => none
      else if c = 't' then
        match drop_front_match "true".data cs with
        | some r => some (.bool true, r)
        | none => none
      else if c = 'f' then
        match drop_front_match "false".data cs with
        | some r => some (.bool false, r)
        | none => none
      else if c = 'n' then
        match drop_front_match "null".data cs with
        | some r => some (.null, r)
        | none => none
      else parse_number cs

def parse_members : Nat → List Char → Option (List (String × Json) × List Char)
  | 0, _ => none
  | fuel + 1, cs0 =>
    match skip_ws cs0 with
    | '"' :: rest =>
      match parse_string_aux rest.length rest with
      | none => none
      | some (key, r1) =>
        match skip_ws r1 with
        | ':' :: r2 =>
          match parse_value fuel r2 with
          | none => none
          | some (v, r3) =>
            match skip_ws r3 with
            | ',' :: r4 =>
              match parse_members fuel r4 with
              | some (fields, r5) => some ((String.mk key, v) :: fields, r5)
              | none => none
            | '\x7d' :: r4 => some ([(String.mk key, v)], r4)
            | _ => none
        | _ => none
    | _ => none

def parse_elems : Nat → List Char → Option (List Json × List Char)
  | 0, _ => none
  | fuel + 1, cs0 =>
    match parse_value fuel cs0 with
    | none => none
    | some (v, r) =>
      match skip_ws r with
      | ',' :: r2 =>
        match parse_elems fuel r2 with
        | some (elems, r3) => some (v :: elems, r3)
        | none => none
      | ']' :: r2 => some ([v], r2)
      | _ => none

end

/-- Model of serde_json::from_str for Value: a complete value followed by
at most trailing whitespace; None on any parse failure. -/
def parse_json (s : String) : Option Json :=
  match parse_value (s.data.length + 1) s.data with
  | some (v, r) => if skip_ws r = [] then some v else none
  | none => none

/-! ## Rust str primitives

Modelled structurally over the character list so that every classifier run
is kernel-computable.  Whitespace is the ASCII subset Char.isWhitespace,
which covers every character the embedded commands can contain. -/

/-- str::trim. -/
def rust_trim (s : String) : String :=
  String.mk ((((s.data.dropWhile fun c => c.isWhitespace).reverse.dropWhile
    fun c => c.isWhitespace)).reverse)

/-- str::starts_with for a string pattern. -/
def rust_starts_with (s : String) (pat : String) : Bool :=
  (drop_front_match pat.data s.data).isSome

/-- str::ends_with for a string pattern. -/
def rust_ends_with (s : String) (pat : String) : Bool :=
  (drop_front_match pat.data.reverse s.data.reverse).isSome

/-- str::contains for a char pattern. -/
def rust_contains_char (s : String) (c : Char) : Bool :=
  s.data.any fun x => x = c

/-- Leftmost, non-overlapping split on a non-empty separator, as
str::split with a &str pattern produces it; fuel-bounded (the input length
is always enough fuel since each match consumes at least one character). -/
def split_on_go (sep : List Char) : Nat → List Char → List (List Char)
  | _, [] => [[]]
  | 0, cs => [cs]
  | fuel + 1, c :: cs =>
    match drop_front_match sep (c :: cs) with
    | some rest => [] :: split_on_go sep fuel rest
    | none =>
      match split_on_go sep fuel cs with
      | [] => [[c]]
      | l :: ls => (c :: l) :: ls

/-- str::split with a string separator. -/
def rust_split_on (s : String) (sep : String) : List String :=
  (split_on_go sep.data s.data.length s.data).map String.mk

/-! ## Risk classifier (src/tools/risk.rs) -/

inductive RiskLevel where
  | Safe : RiskLevel
  | Moderate : RiskLevel
  | Dangerous : RiskLevel
deriving DecidableEq

def DANGEROUS_COMMAND_WORDS : List String :=
  ["rm", "rmdir", "sudo", "su", "kill", "pkill", "killall", "chmod", "chown",
   "chgrp", "dd", "mkfs", "fdisk", "parted", "mount", "umount", "shutdown",
   "reboot", "systemctl", "service", "iptables", "useradd", "userdel", "passwd"]

def SAFE_PATTERNS : List String :=
  ["ls", "cat", "head", "tail", "less", "more", "wc", "echo", "printf", "pwd",
   "whoami", "which", "where", "type", "file", "stat", "du", "df", "date",
   "uname", "env", "printenv", "grep", "rg", "find", "fd", "ag", "awk", "sed",
   "sort", "uniq", "diff", "tree", "git", "cargo", "rustc", "rustup", "npm",
   "node", "python", "python3", "pip", "pip3", "go", "make", "cmake", "docker",
   "kubectl", "cd", "sleep"]

/-- split_whitespace().next().unwrap_or(""): the first maximal run of
non-whitespace characters. -/
def first_word (s : String) : String :=
  String.mk ((s.data.dropWhile fun c => c.isWhitespace).takeWhile
    fun c => ¬ c.isWhitespace)

/-- is_safe_redirect_target from risk.rs. -/
def is_safe_redirect_target (target : String) : Bool :=
  if target = "" then true
  else
    let t := rust_trim target
    if t = "/dev/null" then true
    else if rust_starts_with t "&" ∧ 1 < t.data.length ∧
        (t.data.drop 1).all Char.isDigit then true
    else if t = "/tmp" ∨ rust_starts_with t "/tmp/" then true
    else if t = "/var/tmp" ∨ rust_starts_with t "/var/tmp/" then true
    else false

/-- Index just past an optional second '>' at i+1. -/
def after_arrows (chars : List Char) (i : Nat) : Nat :=
  if chars.get? (i + 1) = some '>' then i + 2 else i + 1

/-- The while-loop skipping ' ' (only spaces, as in the source); fuel-bounded,
`chars.length` fuel always suffices since the index grows each step. -/
def skip_spaces (chars : List Char) : Nat → Nat → Nat
  | 0, j => j
  | fuel + 1, j => if chars.get? j = some ' ' then skip_spaces chars fuel (j + 1) else j

/-- The redirect-target text the scanner reads after a '>' at index i:
skip an optional second '>', then spaces, then take until whitespace. -/
def redirect_target_at (chars : List Char) (i : Nat) : String :=
  let j := skip_spaces chars chars.length (after_arrows chars i)
  String.mk ((chars.drop j).takeWhile fun c => ¬ c.isWhitespace)

/-- has_dangerous_redirect scanning loop; fuel-bounded (the scan index grows
by at least one each step, so `chars.length + 1` fuel always suffices).
The source re-checks `is_safe_redirect_target` on an identical recomputation
of the target inside the digit-guarded branch; that inner test can never
succeed there, but it is kept to mirror the source. -/
def hdr_loop (chars : List Char) : Nat → Nat → Bool
  | 0, _ => false
  | fuel + 1, i =>
    if i < chars.length then
      if chars.get? i = some '>' then
        let target := redirect_target_at chars i
        let prev_digit : Bool := (((chars.get? (i - 1)).map Char.isDigit).getD false)
        if target ≠ "" ∧ ¬ is_safe_redirect_target target then
          if 0 < i ∧ prev_digit = true then
            if is_safe_redirect_target target then
              hdr_loop chars fuel (skip_spaces chars chars.length (after_arrows chars i))
            else true
          else true
        else hdr_loop chars fuel (i + 1)
      else hdr_loop chars fuel (i + 1)
    else false

def has_dangerous_redirect (cmd : String) : Bool :=
  hdr_loop cmd.data (cmd.data.length + 1) 0

/-- The denylist scan of classify_single_command: split on the pipe character, trim each
pipeline stage, match its first word against the dangerous command words. -/
def deny_list_hit (cmd : String) : Bool :=
  ((rust_split_on cmd "|").map rust_trim).any fun seg =>
    DANGEROUS_COMMAND_WORDS.any fun pattern => first_word seg = pattern

/-- The allowlist scan of classify_single_command: the first word of the command
equals a safe pattern, or contains '/' and ends with one. -/
def allow_list_hit (cmd : String) : Bool :=
  let fw := first_word cmd
  SAFE_PATTERNS.any fun pattern =>
    fw = pattern ∨ (rust_contains_char fw '/' ∧ rust_ends_with fw pattern)

/-- classify_single_command from risk.rs. -/
def classify_single_command (cmd : String) : RiskLevel :=
  if deny_list_hit cmd then RiskLevel.Dangerous
  else if has_dangerous_redirect cmd then RiskLevel.Dangerous
  else if allow_list_hit cmd then RiskLevel.Safe
  else RiskLevel.Moderate

/-- The sub-command list: split on && and ||, trim, drop empties. -/
def sub_commands (command : String) : List String :=
  (((((rust_split_on (rust_trim command) "&&").flatMap
      fun s => rust_split_on s "||").map rust_trim).filter fun s => s ≠ ""))

/-- The worst-level accumulation loop of classify_bash_command. -/
def classify_loop : List String → RiskLevel → RiskLevel
  | [], worst => worst
  | sub :: rest, worst =>
    let level := classify_single_command sub
    if level = RiskLevel.Dangerous then RiskLevel.Dangerous
    else if level = RiskLevel.Moderate ∧ worst = RiskLevel.Safe then
      classify_loop rest RiskLevel.Moderate
    else classify_loop rest worst

def classify_bash_command (command : String) : RiskLevel :=
  classify_loop (sub_commands command) RiskLevel.Safe

/-- assess_bash_risk: parse the JSON arguments (Null on failure), read the
"command" field as a string ("" on failure), classify. -/
def assess_bash_risk (arguments : String) : RiskLevel :=
  let args := (parse_json arguments).getD Json.null
  let command := ((args.getField "command").asStr).getD ""
  classify_bash_command command

/-- assess_risk from risk.rs. -/
def assess_risk (tool_name : String) (arguments : String) : RiskLevel :=
  if tool_name = "read_file" ∨ tool_name = "list_directory" then RiskLevel.Safe
  else if tool_name = "write_file" ∨ tool_name = "edit" then RiskLevel.Moderate
  else if tool_name = "bash" then assess_bash_risk arguments
  else RiskLevel.Moderate

/-- describe_tool_call from risk.rs. -/
def describe_tool_call (tool_name : String) (arguments : String) : String :=
  let args := (parse_json arguments).getD Json.null
  if tool_name = "bash" then
    "执行命令: " ++ (((args.getField "command").asStr).getD "?")
  else if tool_name = "write_file" then
    "写入文件: " ++ (((args.getField "path").asStr).getD "?")
  else if tool_name = "edit" then
    "编辑文件: " ++ (((args.getField "path").asStr).getD "?")
  else if tool_name = "read_file" then
    "读取文件: " ++ (((args.getField "path").asStr).getD "?")
  else
    "调用工具: " ++ tool_name

/-! ## Message / transcript model (src/types.rs) -/

inductive Role where
  | System : Role
  | User : Role
  | Assistant : Role
  | Tool : Role
deriving DecidableEq

structure ToolCall where
  id : String
  name : String
  arguments : String
deriving DecidableEq

structure Message where
  role : Role
  content : String
  tool_calls : List ToolCall
  tool_call_id : Option String
deriving DecidableEq

def Message.system (content : String) : Message :=
  ⟨Role.System, content, [], none⟩

def Message.user (content : String) : Message :=
  ⟨Role.User, content, [], none⟩

def Message.assistant (content : String) : Message :=
  ⟨Role.Assistant, content, [], none⟩

def Message.assistant_with_tool_calls (content : String) (tool_calls : List ToolCall) : Message :=
  ⟨Role.Assistant, content, tool_calls, none⟩

def Message.tool_result (tool_call_id : String) (content : String) : Message :=
  ⟨Role.Tool, content, [], some tool_call_id⟩

structure ChatResponse where
  content : String
  tool_calls : List ToolCall
deriving DecidableEq

inductive StreamChunk where
  | TextDelta : String → StreamChunk
  | Done : StreamChunk
deriving DecidableEq

/-- Agent::new builds the transcript as vec![Message::system(prompt)]. -/
def agent_new_messages (system_prompt : String) : List Message :=
  [Message.system system_prompt]

/-! ## Context estimation and compaction (src/agent.rs) -/

/-- estimate_tokens: (char_count / 3).max(1). -/
def estimate_tokens (text : String) : Nat :=
  max (text.data.length / 3) 1

/-- estimate_context_tokens: per message, content tokens plus
(argument tokens + 10) per tool call plus 4 overhead. -/
def estimate_context_tokens (msgs : List Message) : Nat :=
  (msgs.map fun m =>
    estimate_tokens m.content
      + (m.tool_calls.map fun tc => estimate_tokens tc.arguments + 10).sum
      + 4).sum

/-- The 85% threshold; models `(limit as f64 * 0.85) as u64` with exact
Nat arithmetic. -/
def compaction_threshold (limit : Nat) : Nat :=
  limit * 85 / 100

/-- Vec::remove(1): drop the second element. -/
def remove_second : List Message → List Message
  | m0 :: _ :: rest => m0 :: rest
  | l => l

/-- The eviction loop of compact_context; fuel-bounded (each step removes a
message, so the list length is always enough fuel). -/
def compact_loop (threshold : Nat) : Nat → List Message → List Message
  | 0, msgs => msgs
  | fuel + 1, msgs =>
    if msgs.length > 2 ∧ estimate_context_tokens msgs > threshold then
      compact_loop threshold fuel (remove_second msgs)
    else msgs

/-- compact_context from src/agent.rs. -/
def compact_context (limit : Nat) (msgs : List Message) : List Message :=
  let threshold := compaction_threshold limit
  if estimate_context_tokens msgs ≤ threshold then msgs
  else compact_loop threshold msgs.length msgs

/-! ## Agent loop (src/agent.rs, process_message)

The LLM backend and the tool router are oracles; the router records each
`execute` invocation in the `executed` trace of the run.  The confirmation
channel is a queue of pending boolean decisions (None models the
`confirm_rx = None` case; an exhausted queue models a closed channel, whose
`recv()` yields None and `unwrap_or(false)` denies). -/

structure Env where
  llm : List Message → Except String ChatResponse
  router : String → String → Except String String

inductive AgentEvent where
  | ToolConfirm : String → String → String → AgentEvent
  | ToolStart : String → String → AgentEvent
  | ToolEnd : String → String → Bool → AgentEvent
  | Done : String → AgentEvent
deriving DecidableEq

/-- One recv() on the confirmation channel with unwrap_or(false). -/
def confirm_recv : Option (List Bool) → Bool × Option (List Bool)
  | none => (false, none)
  | some [] => (false, some [])
  | some (b :: rest) => (b, some rest)

/-- format!("Tool call \x27...\x27 was denied by the user."). -/
def denial_message (name : String) : String :=
  "Tool call \x27" ++ name ++ "\x27 was denied by the user."

structure ToolPhaseOut where
  messages : List Message
  confirms : Option (List Bool)
  events : List AgentEvent
  executed : List (String × String)
deriving DecidableEq

/-- The per-tool-call body of the loop (risk gate, confirmation, execution,
result message), folded over the tool calls of the response in request order. -/
def process_tool_calls (env : Env) :
    List ToolCall → List Message → Option (List Bool) → ToolPhaseOut
  | [], msgs, confirm => ⟨msgs, confirm, [], []⟩
  | tc :: rest, msgs, confirm =>
    let risk := assess_risk tc.name tc.arguments
    if risk = RiskLevel.Dangerous then
      let desc := describe_tool_call tc.name tc.arguments
      let decision := confirm_recv confirm
      if decision.1 = false then
        let out := process_tool_calls env rest
          (msgs ++ [Message.tool_result tc.id (denial_message tc.name)]) decision.2
        ⟨out.messages, out.confirms,
          AgentEvent.ToolConfirm tc.name tc.arguments desc
            :: AgentEvent.ToolEnd tc.name tc.arguments false :: out.events,
          out.executed⟩
      else
        let result := env.router tc.name tc.arguments
        let result_text := match result with
          | .ok output => output
          | .error e => "Error: " ++ e
        let success := match result with
          | .ok _ => true
          | .error _ => false
        let out := process_tool_calls env rest
          (msgs ++ [Message.tool_result tc.id result_text]) decision.2
        ⟨out.messages, out.confirms,
          AgentEvent.ToolConfirm tc.name tc.arguments desc
            :: AgentEvent.ToolStart tc.name tc.arguments
            :: AgentEvent.ToolEnd tc.name tc.arguments success :: out.events,
          (tc.name, tc.arguments) :: out.executed⟩
    else
      let result := env.router tc.name tc.arguments
      let result_text := match result with
        | .ok output => output
        | .error e => "Error: " ++ e
      let success := match result with
        | .ok _ => true
        | .error _ => false
      let out := process_tool_calls env rest
        (msgs ++ [Message.tool_result tc.id result_text]) confirm
      ⟨out.messages, out.confirms,
        AgentEvent.ToolStart tc.name tc.arguments
          :: AgentEvent.ToolEnd tc.name tc.arguments success :: out.events,
        (tc.name, tc.arguments) :: out.executed⟩

/-- The synthetic stop message on iteration overflow. -/
def stop_message (max_iterations : Nat) : String :=
  "[Agent stopped: reached maximum of " ++ toString max_iterations ++ " iterations]"

instance {ε α : Type} [DecidableEq ε] [DecidableEq α] : DecidableEq (Except ε α) := fun x y =>
  match x, y with
  | .ok a, .ok b =>
    if h : a = b then isTrue (by rw [h]) else isFalse (by intro he; cases he; exact h rfl)
  | .error a, .error b =>
    if h : a = b then isTrue (by rw [h]) else isFalse (by intro he; cases he; exact h rfl)
  | .ok _, .error _ => isFalse (by intro h; cases h)
  | .error _, .ok _ => isFalse (by intro h; cases h)

structure RunOut where
  result : Except String String
  messages : List Message
  events : List AgentEvent
  executed : List (String × String)
  snapshots : List (List Message)
deriving DecidableEq

/-- The main loop of process_message.  The source counts iterations up and
stops when `iterations > max_iterations`; here the counter is modelled by
`remaining = max_iterations - iterations`, which reaches 0 exactly when the
guard of the source fires, so `remaining` model-calls are performed.  The
request transcript of each model call is recorded in `snapshots`. -/
def process_loop (env : Env) (max_iterations : Nat) :
    Nat → List Message → Option (List Bool) → RunOut
  | 0, msgs, _ =>
    ⟨.ok (stop_message max_iterations), msgs,
      [AgentEvent.Done (stop_message max_iterations)], [], []⟩
  | remaining + 1, msgs, confirm =>
    match env.llm msgs with
    | .error e =>
      ⟨.error ("LLM streaming call failed: " ++ e), msgs, [], [], [msgs]⟩
    | .ok response =>
      if response.tool_calls ≠ [] then
        let msgs2 := msgs ++ [Message.assistant_with_tool_calls
          response.content response.tool_calls]
        let tp := process_tool_calls env response.tool_calls msgs2 confirm
        let out := process_loop env max_iterations remaining tp.messages tp.confirms
        ⟨out.result, out.messages, tp.events ++ out.events,
          tp.executed ++ out.executed, msgs :: out.snapshots⟩
      else
        ⟨.ok response.content, msgs ++ [Message.assistant response.content],
          [AgentEvent.Done response.content], [], [msgs]⟩

/-- process_message: push the user message, compact once, run the loop. -/
def process_message (context_window : Nat) (max_iterations : Nat) (env : Env)
    (msgs0 : List Message) (user_input : String)
    (confirm : Option (List Bool)) : RunOut :=
  let msgs1 := msgs0 ++ [Message.user user_input]
  let msgs2 := compact_context context_window msgs1
  process_loop env max_iterations max_iterations msgs2 confirm

/-! ## Shared SSE line framing (both streaming parsers)

Both chat_completion_stream implementations append each network chunk to a
string buffer and repeatedly split off the text before the first newline
(dropping trailing CRs) until no newline remains; a final unterminated line
stays in the buffer. -/

/-- buffer.find newline: the first line and the remainder after the newline. -/
def split_first_line : List Char → Option (List Char × List Char)
  | [] => none
  | c :: rest =>
    if c = '\n' then some ([], rest)
    else
      match split_first_line rest with
      | none => none
      | some (l, r) => some (c :: l, r)

/-- trim_end_matches for CR. -/
def trim_cr (l : List Char) : List Char :=
  (l.reverse.dropWhile fun c => c = '\r').reverse

/-- Process complete lines greedily; fuel-bounded (the buffer length shrinks
at each step so `buf.length` fuel always suffices). -/
def sse_lines {σ : Type} (pl : σ → List Char → σ) : Nat → σ → List Char → σ × List Char
  | 0, st, buf => (st, buf)
  | fuel + 1, st, buf =>
    match split_first_line buf with
    | none => (st, buf)
    | some (line, rest) => sse_lines pl fuel (pl st (trim_cr line)) rest

def sse_consume {σ : Type} (pl : σ → List Char → σ) (st : σ) (buf : List Char) :
    σ × List Char :=
  sse_lines pl buf.length st buf

/-- Append one network chunk and process the complete lines it exposes. -/
def sse_feed {σ : Type} (pl : σ → List Char → σ) (s : σ × List Char)
    (chunk : List Char) : σ × List Char :=
  sse_consume pl s.1 (s.2 ++ chunk)

/-- Run the while-let over the whole chunk sequence. -/
def sse_run {σ : Type} (pl : σ → List Char → σ) (init : σ)
    (chunks : List (List Char)) : σ × List Char :=
  chunks.foldl (sse_feed pl) (init, [])

/-! ## Format A: Anthropic streaming parser (src/llm/anthropic.rs) -/

structure StreamToolCallAccumulator where
  id : String
  name : String
  arguments : String
deriving DecidableEq

structure AnthropicState where
  content : String
  tool_calls : List StreamToolCallAccumulator
  input_tokens : Nat
  output_tokens : Nat
  current_event_type : String
  sent : List StreamChunk
deriving DecidableEq

def anthropic_init : AnthropicState :=
  ⟨"", [], 0, 0, "", []⟩

/-- tool_calls.last_mut(): append a fragment to the last accumulator. -/
def append_last_arguments : List StreamToolCallAccumulator → String →
    List StreamToolCallAccumulator
  | [], _ => []
  | [tc], j => [{ tc with arguments := tc.arguments ++ j }]
  | tc :: rest, j => tc :: append_last_arguments rest j

def anthropic_handle_event (st : AnthropicState) (v : Json) : AnthropicState :=
  match st.current_event_type with
  | "message_start" =>
    match (v.get "message").bind (fun m => m.get "usage") with
    | some u => { st with input_tokens := ((u.get "input_tokens").bind Json.asNat).getD 0 }
    | none => st
  | "content_block_start" =>
    match v.get "content_block" with
    | none => st
    | some block =>
      if ((block.get "type").bind Json.asStr).getD "" = "tool_use" then
        { st with tool_calls := st.tool_calls ++
            [⟨((block.get "id").bind Json.asStr).getD "",
              ((block.get "name").bind Json.asStr).getD "", ""⟩] }
      else st
  | "content_block_delta" =>
    match v.get "delta" with
    | none => st
    | some delta =>
      let delta_type := ((delta.get "type").bind Json.asStr).getD ""
      if delta_type = "text_delta" then
        match (delta.get "text").bind Json.asStr with
        | some text =>
          { st with content := st.content ++ text,
                    sent := st.sent ++ [StreamChunk.TextDelta text] }
        | none => st
      else if delta_type = "input_json_delta" then
        match (delta.get "partial_json").bind Json.asStr with
        | some j => { st with tool_calls := append_last_arguments st.tool_calls j }
        | none => st
      else st
  | "message_delta" =>
    match v.get "usage" with
    | some u => { st with output_tokens := ((u.get "output_tokens").bind Json.asNat).getD 0 }
    | none => st
  | "message_stop" => { st with sent := st.sent ++ [StreamChunk.Done] }
  | _ => st

def anthropic_process_line (st : AnthropicState) (line : List Char) : AnthropicState :=
  if line = [] then { st with current_event_type := "" }
  else
    match drop_front_match "event: ".data line with
    | some event_type => { st with current_event_type := rust_trim (String.mk event_type) }
    | none =>
      match drop_front_match "data: ".data line with
      | none => st
      | some data =>
        match parse_value (data.length + 1) data with
        | some (v, r) => if skip_ws r = [] then anthropic_handle_event st v else st
        | none => st

def anthropic_finalize (st : AnthropicState) : ChatResponse :=
  ⟨st.content, st.tool_calls.map fun tc => ⟨tc.id, tc.name, tc.arguments⟩⟩

/-- The ChatResponse that Format A streaming returns on the given chunk
sequence (the trailing unterminated buffer, if any, is discarded, as in the
source). -/
def anthropic_stream_response (chunks : List (List Char)) : ChatResponse :=
  anthropic_finalize (sse_run anthropic_process_line anthropic_init chunks).1

/-! ## Format B: OpenAI-compatible streaming parser (src/llm/openai_compatible.rs) -/

structure StreamFunctionDeltaM where
  nameF : Option String
  argumentsF : Option String

structure StreamToolCallDeltaM where
  indexF : Nat
  idF : Option String
  functionF : Option StreamFunctionDeltaM

structure StreamDeltaM where
  contentF : Option String
  toolCallsF : Option (List StreamToolCallDeltaM)

structure StreamChoiceM where
  delta : StreamDeltaM

structure ApiUsageM where
  prompt_tokens : Option Nat
  completion_tokens : Option Nat

structure StreamResponseChunkM where
  choices : List StreamChoiceM
  usageF : Option ApiUsageM

/-- serde: Option String field — absent or null is None, a string is Some,
any other shape is a type error that fails the whole chunk. -/
def field_opt_str (j : Json) (key : String) : Option (Option String) :=
  match j.get key with
  | none => some none
  | some Json.null => some none
  | some (Json.str s) => some (some s)
  | some _ => none

def field_opt_nat (j : Json) (key : String) : Option (Option Nat) :=
  match j.get key with
  | none => some none
  | some Json.null => some none
  | some (Json.num n) => if 0 ≤ n then some (some n.toNat) else none
  | some _ => none

def is_obj : Json → Bool
  | Json.obj _ => true
  | _ => false

def decode_function_delta (j : Json) : Option StreamFunctionDeltaM :=
  if is_obj j then do
    let n ← field_opt_str j "name"
    let a ← field_opt_str j "arguments"
    some ⟨n, a⟩
  else none

def decode_tool_call_delta (j : Json) : Option StreamToolCallDeltaM :=
  if is_obj j then do
    let idx ← match j.get "index" with
      | some (Json.num n) => if 0 ≤ n then some n.toNat else none
      | _ => none
    let i ← field_opt_str j "id"
    let f ← match j.get "function" with
      | none => some none
      | some Json.null => some none
      | some fj => (decode_function_delta fj).map some
    some ⟨idx, i, f⟩
  else none

def decode_stream_delta (j : Json) : Option StreamDeltaM :=
  if is_obj j then do
    let c ← field_opt_str j "content"
    let tcs ← match j.get "tool_calls" with
      | none => some none
      | some Json.null => some none
      | some (Json.arr xs) => (xs.mapM decode_tool_call_delta).map some
      | some _ => none
    some ⟨c, tcs⟩
  else none

def decode_stream_choice (j : Json) : Option StreamChoiceM :=
  if is_obj j then do
    let d ← match j.get "delta" with
      | some dj => decode_stream_delta dj
      | none => none
    some ⟨d⟩
  else none

def decode_usage (j : Json) : Option ApiUsageM :=
  if is_obj j then do
    let p ← field_opt_nat j "prompt_tokens"
    let c ← field_opt_nat j "completion_tokens"
    some ⟨p, c⟩
  else none

def decode_stream_chunk (j : Json) : Option StreamResponseChunkM :=
  if is_obj j then do
    let cs ← match j.get "choices" with
      | some (Json.arr xs) => xs.mapM decode_stream_choice
      | _ => none
    let u ← match j.get "usage" with
      | none => some none
      | some Json.null => some none
      | some uj => (decode_usage uj).map some
    some ⟨cs, u⟩
  else none

structure OpenAIState where
  content : String
  tool_calls : List StreamToolCallAccumulator
  prompt_tokens : Nat
  completion_tokens : Nat
  finished : Option ChatResponse
  sent : List StreamChunk
deriving DecidableEq

def openai_init : OpenAIState :=
  ⟨"", [], 0, 0, none, []⟩

/-- while tool_calls.len() <= index push Default::default(). -/
def grow_to (l : List StreamToolCallAccumulator) (index : Nat) :
    List StreamToolCallAccumulator :=
  l ++ List.replicate (index + 1 - l.length) ⟨"", "", ""⟩

/-- Apply one indexed tool-call fragment: replace id, append name and
arguments fragments. -/
def apply_tool_call_delta (l : List StreamToolCallAccumulator)
    (d : StreamToolCallDeltaM) : List StreamToolCallAccumulator :=
  let l1 := grow_to l d.indexF
  let acc := l1.getD d.indexF ⟨"", "", ""⟩
  let acc1 := match d.idF with
    | some i => { acc with id := i }
    | none => acc
  let acc2 := match d.functionF with
    | none => acc1
    | some f =>
      let a := match f.nameF with
        | some n => { acc1 with name := acc1.name ++ n }
        | none => acc1
      match f.argumentsF with
      | some s => { a with arguments := a.arguments ++ s }
      | none => a
  l1.set d.indexF acc2

def openai_handle_chunk (st : OpenAIState) (chunk : StreamResponseChunkM) : OpenAIState :=
  let st1 := match chunk.choices.head? with
    | none => st
    | some choice =>
      let s1 := match choice.delta.contentF with
        | some text =>
          if text ≠ "" then
            { st with content := st.content ++ text,
                      sent := st.sent ++ [StreamChunk.TextDelta text] }
          else st
        | none => st
      match choice.delta.toolCallsF with
      | none => s1
      | some tcs => { s1 with tool_calls := tcs.foldl apply_tool_call_delta s1.tool_calls }
  match chunk.usageF with
  | some u =>
    { st1 with prompt_tokens := u.prompt_tokens.getD 0,
               completion_tokens := u.completion_tokens.getD 0 }
  | none => st1

def openai_build_response (st : OpenAIState) : ChatResponse :=
  ⟨st.content, st.tool_calls.map fun tc => ⟨tc.id, tc.name, tc.arguments⟩⟩

/-- A line of the Format B stream.  The [DONE] sentinel returns the
accumulated response immediately; the `finished` field models that early
return (all later lines are ignored). -/
def openai_process_line (st : OpenAIState) (line : List Char) : OpenAIState :=
  if st.finished.isSome then st
  else if line = [] then st
  else
    match drop_front_match "data: ".data line with
    | none => st
    | some data =>
      if rust_trim (String.mk data) = "[DONE]" then
        { st with finished := some (openai_build_response st),
                  sent := st.sent ++ [StreamChunk.Done] }
      else
        match parse_value (data.length + 1) data with
        | some (v, r) =>
          if skip_ws r = [] then
            match decode_stream_chunk v with
            | some chunk => openai_handle_chunk st chunk
            | none => st
          else st
        | none => st

/-- The ChatResponse Format B streaming returns on the given chunk sequence. -/
def openai_stream_response (chunks : List (List Char)) : ChatResponse :=
  let st := (sse_run openai_process_line openai_init chunks).1
  match st.finished with
  | some r => r
  | none => openai_build_response st

/-! ## Spec-side definitions (stated from the words of the specification, to be
compared with the source-derived functions above) -/

/-- The maximum of two risk levels under Safe < Moderate < Dangerous. -/
def risk_max : RiskLevel → RiskLevel → RiskLevel
  | RiskLevel.Dangerous, _ => RiskLevel.Dangerous
  | _, RiskLevel.Dangerous => RiskLevel.Dangerous
  | RiskLevel.Moderate, _ => RiskLevel.Moderate
  | _, RiskLevel.Moderate => RiskLevel.Moderate
  | RiskLevel.Safe, RiskLevel.Safe => RiskLevel.Safe

/-- Numeric rank of a risk level in the Safe < Moderate < Dangerous order. -/
def RiskLevel.rank : RiskLevel → Nat
  | RiskLevel.Safe => 0
  | RiskLevel.Moderate => 1
  | RiskLevel.Dangerous => 2

/-- Spec: "the aggregate risk is the maximum over sub-commands". -/
def risk_sup (cmds : List String) : RiskLevel :=
  (cmds.map classify_single_command).foldr risk_max RiskLevel.Safe

/-- Spec: a file-descriptor-duplication target such as the "&1" of 2>&1. -/
def fd_dup_form (t : String) : Bool :=
  rust_starts_with t "&" ∧ 1 < t.data.length ∧ (t.data.drop 1).all Char.isDigit

/-- Spec: a path under a recognized temp directory. -/
def under_tmp_dir (t : String) : Bool :=
  t = "/tmp" ∨ rust_starts_with t "/tmp/" ∨ t = "/var/tmp" ∨
    rust_starts_with t "/var/tmp/"

/-- Spec: the safe redirect targets are /dev/null, a file-descriptor
duplication, and paths under a recognized temp directory. -/
def spec_safe_redirect_target (t : String) : Bool :=
  rust_trim t = "/dev/null" ∨ fd_dup_form (rust_trim t) ∨
    under_tmp_dir (rust_trim t)

/-- Spec: the command has an output redirection whose scanned target is
nonempty and not a safe redirect target. -/
def unsafe_redirect_spec (cmd : String) : Prop :=
  ∃ i, i < cmd.data.length ∧ cmd.data.get? i = some '>' ∧
    redirect_target_at cmd.data i ≠ "" ∧
    is_safe_redirect_target (redirect_target_at cmd.data i) = false

/-- The transcript pairing invariant: scanning with a list of pending tool
calls, every Assistant message with tool calls must be followed immediately
by exactly one Tool message per call, carrying the matching id, in order,
before any other message. -/
def check_paired : List ToolCall → List Message → Bool
  | [], [] => true
  | _ :: _, [] => false
  | [], m :: rest =>
    if m.role = Role.Tool then false
    else if m.role = Role.Assistant then check_paired m.tool_calls rest
    else check_paired [] rest
  | tc :: tcs, m :: rest =>
    decide (m.role = Role.Tool) && decide (m.tool_call_id = some tc.id)
      && check_paired tcs rest

def well_paired (msgs : List Message) : Bool :=
  check_paired [] msgs

/-- One Tool message per tool call, same order, matching ids. -/
def tool_results_match : List ToolCall → List Message → Bool
  | [], [] => true
  | [], _ :: _ => false
  | _ :: _, [] => false
  | tc :: tcs, m :: ms =>
    decide (m.role = Role.Tool) && decide (m.tool_call_id = some tc.id)
      && tool_results_match tcs ms

/-! ## Concrete fixtures for the tested properties -/

/-- Format A fixture: the event stream whose text fragments concatenate to
"Hello, world!" and whose tool-call argument fragments arrive split as three
partial_json strings. -/
def anthropic_stream_lines : List String := [
  "event: message_start",
  "data: \x7b\"message\":\x7b\"usage\":\x7b\"input_tokens\":5\x7d\x7d\x7d",
  "",
  "event: content_block_start",
  "data: \x7b\"content_block\":\x7b\"type\":\"text\"\x7d\x7d",
  "",
  "event: content_block_delta",
  "data: \x7b\"delta\":\x7b\"type\":\"text_delta\",\"text\":\"Hello, \"\x7d\x7d",
  "",
  "event: content_block_delta",
  "data: \x7b\"delta\":\x7b\"type\":\"text_delta\",\"text\":\"world!\"\x7d\x7d",
  "",
  "event: content_block_start",
  "data: \x7b\"content_block\":\x7b\"type\":\"tool_use\",\"id\":\"toolu_1\",\"name\":\"bash\"\x7d\x7d",
  "",
  "event: content_block_delta",
  "data: \x7b\"delta\":\x7b\"type\":\"input_json_delta\",\"partial_json\":\"\x7b\\\"a\\\":\"\x7d\x7d",
  "",
  "event: content_block_delta",
  "data: \x7b\"delta\":\x7b\"type\":\"input_json_delta\",\"partial_json\":\"1,\\\"b\\\":\"\x7d\x7d",
  "",
  "event: content_block_delta",
  "data: \x7b\"delta\":\x7b\"type\":\"input_json_delta\",\"partial_json\":\"2\x7d\"\x7d\x7d",
  "",
  "event: message_delta",
  "data: \x7b\"usage\":\x7b\"output_tokens\":7\x7d\x7d",
  "",
  "event: message_stop",
  "data: \x7b\x7d"]

/-- The raw byte stream: each line followed by a newline. -/
def sse_text (lines : List String) : List Char :=
  (lines.map fun l => l.data ++ ['\n']).flatten

def anthropic_stream_data : List Char := sse_text anthropic_stream_lines

/-- Format B fixture: the same logical content in the OpenAI-compatible
chunk shape, with the arguments split across three indexed fragments and a
[DONE] sentinel. -/
def openai_stream_lines : List String := [
  "data: \x7b\"choices\":[\x7b\"delta\":\x7b\"content\":\"Hello, \"\x7d\x7d]\x7d",
  "data: \x7b\"choices\":[\x7b\"delta\":\x7b\"content\":\"world!\"\x7d\x7d]\x7d",
  "data: \x7b\"choices\":[\x7b\"delta\":\x7b\"tool_calls\":[\x7b\"index\":0,\"id\":\"call_1\",\"function\":\x7b\"name\":\"bash\",\"arguments\":\"\x7b\\\"a\\\":\"\x7d\x7d]\x7d\x7d]\x7d",
  "data: \x7b\"choices\":[\x7b\"delta\":\x7b\"tool_calls\":[\x7b\"index\":0,\"function\":\x7b\"arguments\":\"1,\\\"b\\\":\"\x7d\x7d]\x7d\x7d]\x7d",
  "data: \x7b\"choices\":[\x7b\"delta\":\x7b\"tool_calls\":[\x7b\"index\":0,\"function\":\x7b\"arguments\":\"2\x7d\"\x7d\x7d]\x7d\x7d]\x7d",
  "data: \x7b\"choices\":[],\"usage\":\x7b\"prompt_tokens\":5,\"completion_tokens\":7\x7d\x7d",
  "data: [DONE]"]

def openai_stream_data : List Char := sse_text openai_stream_lines

/-- The arguments string both parsers must reconstruct. -/
def expected_arguments : String := "\x7b\"a\":1,\"b\":2\x7d"

/-- A 3-chunk split of the Format A stream with boundaries inside lines. -/
def anthropic_chunking : List (List Char) :=
  [anthropic_stream_data.take 13,
   (anthropic_stream_data.drop 13).take 100,
   anthropic_stream_data.drop 113]

/-- A 3-chunk split of the Format B stream with boundaries inside lines. -/
def openai_chunking : List (List Char) :=
  [openai_stream_data.take 7,
   (openai_stream_data.drop 7).take 150,
   openai_stream_data.drop 157]

/-- A model that always requests one (safe) tool call. -/
def env_tool_spam : Env :=
  { llm := fun _ => .ok ⟨"", [⟨"id1", "bash", "\x7b\x7d"⟩]⟩,
    router := fun _ _ => .ok "ok" }

/-- A model that requests one safe bash call on the first turn and finishes
on any transcript already containing a Tool message. -/
def env_tool_once : Env :=
  { llm := fun msgs =>
      if msgs.any (fun m => decide (m.role = Role.Tool)) then .ok ⟨"", []⟩
      else .ok ⟨"", [⟨"id1", "bash", "\x7b\x7d"⟩]⟩,
    router := fun _ _ => .ok "ok" }

/-- Like env_tool_once, but the single tool call carries 90 characters of
arguments, so the tool turn pushes the transcript far over a small window. -/
def env_big_args : Env :=
  { llm := fun msgs =>
      if msgs.any (fun m => decide (m.role = Role.Tool)) then .ok ⟨"done", []⟩
      else .ok ⟨"", [⟨"id1", "write_file", String.mk (List.replicate 90 'x')⟩]⟩,
    router := fun _ _ => .ok "ok" }

/-- An environment whose router always fails. -/
def env_router_fails : Env :=
  { llm := fun msgs =>
      if msgs.any (fun m => decide (m.role = Role.Tool)) then .ok ⟨"", []⟩
      else .ok ⟨"", [⟨"id1", "bash", "\x7b\x7d"⟩]⟩,
    router := fun _ _ => .error "boom" }

/-- First call of the compaction-pairing scenario: a three-message exchange
with one tool round, run with context window 30. -/
def pairing_run_1 : RunOut :=
  process_message 30 5 env_tool_once [Message.system "sys"] "hello" none

/-- Second call: pushing "hi" tips the estimate over the threshold, and the
FIFO eviction removes the user and assistant messages while the orphaned
Tool result survives. -/
def pairing_run_2 : RunOut :=
  process_message 30 5 env_tool_once pairing_run_1.messages "hi" none

/-- The run whose second model call sees an over-threshold four-message
transcript (compaction ran only before the first call). -/
def big_args_run : RunOut :=
  process_message 30 5 env_big_args [Message.system "sys"] "hello" none

/-- Arguments for a Dangerous bash call. -/
def rmrf_args : String := "\x7b\"command\":\"rm -rf /\"\x7d"

/-! ## Helper lemmas: risk aggregation -/

theorem risk_max_swap (a x y : RiskLevel) :
    risk_max a (risk_max x y) = risk_max x (risk_max a y) := by
  cases a <;> cases x <;> cases y <;> rfl

theorem risk_max_safe (x : RiskLevel) : risk_max RiskLevel.Safe x = x := by
  cases x <;> rfl

theorem foldr_risk_max_seed (l : List RiskLevel) (a b : RiskLevel) :
    risk_max a (l.foldr risk_max b) = l.foldr risk_max (risk_max a b) := by
  induction l generalizing b with
  | nil => rfl
  | cons x xs ih =>
    simp only [List.foldr_cons]
    rw [risk_max_swap, ih]

theorem classify_loop_dangerous (l : List String) :
    classify_loop l RiskLevel.Dangerous = RiskLevel.Dangerous := by
  induction l with
  | nil => rfl
  | cons sub rest ih =>
    simp only [classify_loop]
    cases h : classify_single_command sub <;> simp [h, ih]

theorem classify_loop_cons (sub : String) (rest : List String) (worst : RiskLevel) :
    classify_loop (sub :: rest) worst =
      classify_loop rest (risk_max (classify_single_command sub) worst) := by
  simp only [classify_loop]
  cases h : classify_single_command sub <;> cases worst <;>
    simp [h, classify_loop_dangerous, risk_max]

theorem classify_loop_eq_foldr (l : List String) :
    ∀ worst, classify_loop l worst =
      (l.map classify_single_command).foldr risk_max worst := by
  induction l with
  | nil => intro worst; rfl
  | cons sub rest ih =>
    intro worst
    rw [classify_loop_cons, ih, List.map_cons, List.foldr_cons, foldr_risk_max_seed]

/-! ## Helper lemmas: redirect scanning -/

theorem hdr_loop_iff (chars : List Char) :
    ∀ fuel i, chars.length ≤ fuel + i →
      (hdr_loop chars fuel i = true ↔
        ∃ k, i ≤ k ∧ k < chars.length ∧ chars.get? k = some '>' ∧
          redirect_target_at chars k ≠ "" ∧
          is_safe_redirect_target (redirect_target_at chars k) = false) := by
  intro fuel
  induction fuel with
  | zero =>
    intro i h
    simp only [hdr_loop]
    constructor
    · intro hfalse; exact absurd hfalse (by simp)
    · rintro ⟨k, hik, hk, -⟩
      omega
  | succ fuel ih =>
    intro i h
    by_cases hi : i < chars.length
    · by_cases hgt : chars.get? i = some '>'
      · by_cases htgt : redirect_target_at chars i ≠ "" ∧
            ¬ is_safe_redirect_target (redirect_target_at chars i)
        · have hval : hdr_loop chars (fuel + 1) i = true := by
            simp only [hdr_loop, if_pos hi, if_pos hgt, if_pos htgt]
            split
            · rw [if_neg (by simpa using htgt.2)]
            · rfl
          rw [hval]
          simp only [true_iff]
          exact ⟨i, le_refl i, hi, hgt, htgt.1, by simpa using htgt.2⟩
        · have hval : hdr_loop chars (fuel + 1) i = hdr_loop chars fuel (i + 1) := by
            simp only [hdr_loop, if_pos hi, if_pos hgt, if_neg htgt]
          rw [hval, ih (i + 1) (by omega)]
          constructor
          · rintro ⟨k, hik, rest⟩; exact ⟨k, by omega, rest⟩
          · rintro ⟨k, hik, hk, hgtk, hne, hsafe⟩
            refine ⟨k, ?_, hk, hgtk, hne, hsafe⟩
            rcases Nat.eq_or_lt_of_le hik with heq | hlt
            · exfalso; subst heq; exact htgt ⟨hne, by simp [hsafe]⟩
            · omega
      · have hval : hdr_loop chars (fuel + 1) i = hdr_loop chars fuel (i + 1) := by
          simp only [hdr_loop, if_pos hi, if_neg hgt]
        rw [hval, ih (i + 1) (by omega)]
        constructor
        · rintro ⟨k, hik, rest⟩; exact ⟨k, by omega, rest⟩
        · rintro ⟨k, hik, hk, hgtk, hne, hsafe⟩
          refine ⟨k, ?_, hk, hgtk, hne, hsafe⟩
          rcases Nat.eq_or_lt_of_le hik with heq | hlt
          · exact absurd (heq ▸ hgtk) hgt
          · omega
    · have hval : hdr_loop chars (fuel + 1) i = false := by
        simp only [hdr_loop, if_neg hi]
      rw [hval]
      constructor
      · intro hfalse; exact absurd hfalse (by simp)
      · rintro ⟨k, hik, hk, -⟩; omega

theorem has_dangerous_redirect_iff (cmd : String) :
    has_dangerous_redirect cmd = true ↔ unsafe_redirect_spec cmd := by
  unfold has_dangerous_redirect unsafe_redirect_spec
  rw [hdr_loop_iff cmd.data (cmd.data.length + 1) 0 (by omega)]
  constructor
  · rintro ⟨k, -, rest⟩; exact ⟨k, rest⟩
  · rintro ⟨k, rest⟩; exact ⟨k, Nat.zero_le k, rest⟩

theorem safe_target_eq_spec (t : String) (h : t ≠ "") :
    is_safe_redirect_target t = spec_safe_redirect_target t := by
  unfold is_safe_redirect_target spec_safe_redirect_target fd_dup_form under_tmp_dir
  rw [if_neg h]
  dsimp only []
  split_ifs <;> simp_all
  tauto

theorem single_dangerous_iff_redirect (cmd : String)
    (h : deny_list_hit cmd = false) :
    classify_single_command cmd = RiskLevel.Dangerous ↔
      has_dangerous_redirect cmd = true := by
  unfold classify_single_command
  rw [h]
  simp only [Bool.false_eq_true, if_false]
  by_cases hr : has_dangerous_redirect cmd = true
  · simp [hr]
  · rw [if_neg (by simpa using hr)]
    by_cases ha : allow_list_hit cmd = true
    · rw [if_pos ha]; simp [hr]
    · rw [if_neg (by simpa using ha)]; simp [hr]

/-! ## Helper lemmas: agent loop -/

theorem loop_spam (env : Env) (maxI : Nat)
    (hTools : ∀ m, ∃ r, env.llm m = Except.ok r ∧ r.tool_calls ≠ []) :
    ∀ remaining msgs confirm,
      (process_loop env maxI remaining msgs confirm).result =
        Except.ok (stop_message maxI)
      ∧ (process_loop env maxI remaining msgs confirm).snapshots.length = remaining := by
  intro remaining
  induction remaining with
  | zero => intro msgs confirm; exact ⟨rfl, rfl⟩
  | succ n ih =>
    intro msgs confirm
    obtain ⟨r, hr, htc⟩ := hTools msgs
    simp only [process_loop, hr]
    rw [if_pos htc]
    exact ⟨(ih _ _).1, by simp [(ih _ _).2]⟩

theorem loop_error_only_from_llm (env : Env) (maxI : Nat) :
    ∀ remaining msgs confirm e,
      (process_loop env maxI remaining msgs confirm).result = Except.error e →
      ∃ m c, env.llm m = Except.error c ∧
        e = "LLM streaming call failed: " ++ c := by
  intro remaining
  induction remaining with
  | zero =>
    intro msgs confirm e h
    exact absurd h (by simp [process_loop])
  | succ n ih =>
    intro msgs confirm e h
    cases hllm : env.llm msgs with
    | error c =>
      simp only [process_loop, hllm, Except.error.injEq] at h
      exact ⟨msgs, c, hllm, h.symm⟩
    | ok r =>
      simp only [process_loop, hllm] at h
      by_cases htc : r.tool_calls ≠ []
      · rw [if_pos htc] at h
        exact ih _ _ e h
      · rw [if_neg htc] at h
        exact absurd h (by simp)

theorem remove_second_head (msgs : List Message) :
    (remove_second msgs).head? = msgs.head? := by
  cases msgs with
  | nil => rfl
  | cons a t => cases t <;> rfl

theorem compact_loop_head (thr : Nat) :
    ∀ fuel msgs, (compact_loop thr fuel msgs).head? = msgs.head? := by
  intro fuel
  induction fuel with
  | zero => intro msgs; rfl
  | succ n ih =>
    intro msgs
    simp only [compact_loop]
    split
    · rw [ih, remove_second_head]
    · rfl

theorem compact_context_head (limit : Nat) (msgs : List Message) :
    (compact_context limit msgs).head? = msgs.head? := by
  unfold compact_context
  dsimp only []
  split
  · rfl
  · exact compact_loop_head _ _ _

theorem head?_append_of_some {m : Message} {msgs rest : List Message}
    (h : msgs.head? = some m) : (msgs ++ rest).head? = some m := by
  cases msgs with
  | nil => simp at h
  | cons a t => simpa using h

/-- Every branch of the tool phase appends exactly one Tool message per tool
call, carrying the matching id, in order. -/
theorem ptc_messages_match (env : Env) :
    ∀ tcs msgs confirm, ∃ block,
      (process_tool_calls env tcs msgs confirm).messages = msgs ++ block ∧
      tool_results_match tcs block = true := by
  intro tcs
  induction tcs with
  | nil =>
    intro msgs confirm
    exact ⟨[], by simp [process_tool_calls], rfl⟩
  | cons tc rest ih =>
    intro msgs confirm
    simp only [process_tool_calls]
    split
    · split
      · obtain ⟨b, hb, hm⟩ := ih
          (msgs ++ [Message.tool_result tc.id (denial_message tc.name)])
          (confirm_recv confirm).2
        refine ⟨Message.tool_result tc.id (denial_message tc.name) :: b, ?_, ?_⟩
        · simpa [List.append_assoc] using hb
        · simp [tool_results_match, Message.tool_result, hm]
      · obtain ⟨b, hb, hm⟩ := ih
          (msgs ++ [Message.tool_result tc.id
            (match env.router tc.name tc.arguments with
             | .ok output => output
             | .error e => "Error: " ++ e)])
          (confirm_recv confirm).2
        refine ⟨Message.tool_result tc.id
            (match env.router tc.name tc.arguments with
             | .ok output => output
             | .error e => "Error: " ++ e) :: b, ?_, ?_⟩
        · simpa [List.append_assoc] using hb
        · simp [tool_results_match, Message.tool_result, hm]
    · obtain ⟨b, hb, hm⟩ := ih
        (msgs ++ [Message.tool_result tc.id
          (match env.router tc.name tc.arguments with
           | .ok output => output
           | .error e => "Error: " ++ e)])
        confirm
      refine ⟨Message.tool_result tc.id
          (match env.router tc.name tc.arguments with
           | .ok output => output
           | .error e => "Error: " ++ e) :: b, ?_, ?_⟩
      · simpa [List.append_assoc] using hb
      · simp [tool_results_match, Message.tool_result, hm]

/-- The loop only ever appends to the transcript; every model-call snapshot
is an extension of the entry transcript. -/
theorem loop_messages_extend (env : Env) (maxI : Nat) :
    ∀ remaining msgs confirm,
      (∃ suffix, (process_loop env maxI remaining msgs confirm).messages =
        msgs ++ suffix)
      ∧ ∀ s ∈ (process_loop env maxI remaining msgs confirm).snapshots,
          ∃ suffix, s = msgs ++ suffix := by
  intro remaining
  induction remaining with
  | zero =>
    intro msgs confirm
    exact ⟨⟨[], by simp [process_loop]⟩, by simp [process_loop]⟩
  | succ n ih =>
    intro msgs confirm
    cases hllm : env.llm msgs with
    | error c =>
      simp only [process_loop, hllm]
      refine ⟨⟨[], by simp⟩, ?_⟩
      intro s hs
      simp only [List.mem_singleton] at hs
      exact ⟨[], by simp [hs]⟩
    | ok r =>
      simp only [process_loop, hllm]
      by_cases htc : r.tool_calls ≠ []
      · rw [if_pos htc]
        dsimp only []
        obtain ⟨b, hb, -⟩ := ptc_messages_match env r.tool_calls
          (msgs ++ [Message.assistant_with_tool_calls r.content r.tool_calls]) confirm
        obtain ⟨⟨suf, hsuf⟩, hsnaps⟩ := ih
          (process_tool_calls env r.tool_calls
            (msgs ++ [Message.assistant_with_tool_calls r.content r.tool_calls])
            confirm).messages
          (process_tool_calls env r.tool_calls
            (msgs ++ [Message.assistant_with_tool_calls r.content r.tool_calls])
            confirm).confirms
        constructor
        · refine ⟨([Message.assistant_with_tool_calls r.content r.tool_calls] ++ b) ++ suf, ?_⟩
          rw [hsuf, hb]
          simp [List.append_assoc]
        · intro s hs
          simp only [List.mem_cons] at hs
          rcases hs with hs | hs
          · exact ⟨[], by simp [hs]⟩
          · obtain ⟨suf2, hsuf2⟩ := hsnaps s hs
            refine ⟨([Message.assistant_with_tool_calls r.content r.tool_calls] ++ b) ++ suf2, ?_⟩
            rw [hsuf2, hb]
            simp [List.append_assoc]
      · rw [if_neg htc]
        refine ⟨⟨[Message.assistant r.content], by simp⟩, ?_⟩
        intro s hs
        simp only [List.mem_singleton] at hs
        exact ⟨[], by simp [hs]⟩

/-! ## Helper lemmas: transcript pairing -/

theorem check_paired_append :
    ∀ (msgs : List Message) (p : List ToolCall) (rest : List Message),
      check_paired p msgs = true →
      check_paired p (msgs ++ rest) = check_paired [] rest := by
  intro msgs
  induction msgs with
  | nil =>
    intro p rest h
    cases p with
    | nil => simp
    | cons a b => exact absurd h (by simp [check_paired])
  | cons m ms ih =>
    intro p rest h
    cases p with
    | nil =>
      simp only [check_paired] at h
      simp only [List.cons_append, check_paired]
      by_cases hTool : m.role = Role.Tool
      · rw [if_pos hTool] at h; exact absurd h (by simp)
      · rw [if_neg hTool] at h ⊢
        by_cases hA : m.role = Role.Assistant
        · rw [if_pos hA] at h ⊢; exact ih _ _ h
        · rw [if_neg hA] at h ⊢; exact ih _ _ h
    | cons tc tcs =>
      simp only [check_paired, Bool.and_eq_true] at h
      obtain ⟨⟨h1, h2⟩, h3⟩ := h
      simp only [List.cons_append, check_paired, h1, h2, Bool.true_and]
      exact ih _ _ h3

theorem check_paired_of_match :
    ∀ (tcs : List ToolCall) (ms : List Message),
      tool_results_match tcs ms = true → check_paired tcs ms = true := by
  intro tcs
  induction tcs with
  | nil =>
    intro ms h
    cases ms with
    | nil => rfl
    | cons m rest => exact absurd h (by simp [tool_results_match])
  | cons tc rest ih =>
    intro ms h
    cases ms with
    | nil => exact absurd h (by simp [tool_results_match])
    | cons m rest2 =>
      simp only [tool_results_match, Bool.and_eq_true] at h
      obtain ⟨⟨h1, h2⟩, h3⟩ := h
      simp only [check_paired, h1, h2, Bool.true_and]
      exact ih _ h3

/-- Appending a user message to a fully paired transcript keeps it paired. -/
theorem well_paired_append_user (msgs : List Message) (u : String)
    (h : well_paired msgs = true) :
    well_paired (msgs ++ [Message.user u]) = true := by
  unfold well_paired at h ⊢
  rw [check_paired_append msgs [] _ h]
  rfl

/-- Appending an assistant message with tool calls followed by a matching
block of tool results keeps the transcript paired. -/
theorem well_paired_append_round (msgs : List Message) (content : String)
    (tcs : List ToolCall) (block : List Message)
    (h : well_paired msgs = true) (hm : tool_results_match tcs block = true) :
    well_paired (msgs ++ (Message.assistant_with_tool_calls content tcs :: block)) = true := by
  unfold well_paired at h ⊢
  rw [check_paired_append msgs [] _ h]
  simp only [check_paired, Message.assistant_with_tool_calls]
  rw [if_neg (by simp), if_pos trivial]
  have := check_paired_of_match tcs (block ++ [])
  rw [List.append_nil] at this
  exact this hm

/-- Appending a plain assistant message keeps the transcript paired. -/
theorem well_paired_append_assistant (msgs : List Message) (content : String)
    (h : well_paired msgs = true) :
    well_paired (msgs ++ [Message.assistant content]) = true := by
  unfold well_paired at h ⊢
  rw [check_paired_append msgs [] _ h]
  rfl

/-- The loop invariant: starting from a paired transcript, every model-call
snapshot and the final transcript are paired. -/
theorem loop_snapshots_paired (env : Env) (maxI : Nat) :
    ∀ remaining msgs confirm, well_paired msgs = true →
      ((process_loop env maxI remaining msgs confirm).snapshots.all well_paired) = true
      ∧ well_paired (process_loop env maxI remaining msgs confirm).messages = true := by
  intro remaining
  induction remaining with
  | zero =>
    intro msgs confirm h
    exact ⟨rfl, h⟩
  | succ n ih =>
    intro msgs confirm h
    cases hllm : env.llm msgs with
    | error c =>
      simp only [process_loop, hllm]
      exact ⟨by simp [h], h⟩
    | ok r =>
      simp only [process_loop, hllm]
      by_cases htc : r.tool_calls ≠ []
      · rw [if_pos htc]
        dsimp only []
        obtain ⟨b, hb, hm⟩ := ptc_messages_match env r.tool_calls
          (msgs ++ [Message.assistant_with_tool_calls r.content r.tool_calls]) confirm
        have hpaired : well_paired (process_tool_calls env r.tool_calls
            (msgs ++ [Message.assistant_with_tool_calls r.content r.tool_calls])
            confirm).messages = true := by
          rw [hb, List.append_assoc]
          exact well_paired_append_round msgs r.content r.tool_calls b h hm
        obtain ⟨hsnaps, hfinal⟩ := ih _ _ hpaired
        exact ⟨by simp [h, hsnaps], hfinal⟩
      · rw [if_neg htc]
        exact ⟨by simp [h], well_paired_append_assistant msgs r.content h⟩

/-! ## Helper lemmas: compaction -/

theorem compact_loop_post (thr : Nat) :
    ∀ fuel msgs, msgs.length ≤ fuel →
      estimate_context_tokens (compact_loop thr fuel msgs) ≤ thr
      ∨ (compact_loop thr fuel msgs).length ≤ 2 := by
  intro fuel
  induction fuel with
  | zero =>
    intro msgs h
    right
    simp only [compact_loop]
    omega
  | succ n ih =>
    intro msgs h
    simp only [compact_loop]
    split
    · rename_i hcond
      refine ih (remove_second msgs) ?_
      rcases msgs with - | ⟨a, - | ⟨c, rest⟩⟩
      · simp at hcond
      · simp at hcond
      · simp only [remove_second, List.length_cons] at *
        omega
    · rename_i hcond
      rw [Decidable.not_and_iff_or_not] at hcond
      rcases hcond with hc | hc
      · right; omega
      · left; omega

theorem compact_loop_drop (thr : Nat) :
    ∀ fuel (m0 : Message) rest, rest.length ≤ fuel →
      ∃ k, compact_loop thr fuel (m0 :: rest) = m0 :: rest.drop k
        ∧ ∀ j, j < k → 2 < (m0 :: rest.drop j).length
            ∧ thr < estimate_context_tokens (m0 :: rest.drop j) := by
  intro fuel
  induction fuel with
  | zero =>
    intro m0 rest h
    refine ⟨0, ?_, by omega⟩
    have : rest = [] := List.eq_nil_of_length_eq_zero (by omega)
    subst this
    rfl
  | succ n ih =>
    intro m0 rest h
    simp only [compact_loop]
    split
    · rename_i hcond
      rcases rest with - | ⟨m1, rest'⟩
      · simp at hcond
      · simp only [remove_second]
        obtain ⟨k, hk, hmin⟩ := ih m0 rest' (by simpa using Nat.le_of_succ_le_succ h)
        refine ⟨k + 1, by simpa using hk, ?_⟩
        intro j hj
        cases j with
        | zero => exact ⟨by simpa using hcond.1, by simpa using hcond.2⟩
        | succ j' => simpa using hmin j' (by omega)
    · exact ⟨0, by simp, by omega⟩

/-! ## Helper lemmas: SSE line framing -/

theorem split_some_eq :
    ∀ (buf l r : List Char), split_first_line buf = some (l, r) →
      buf = l ++ '\n' :: r ∧ '\n' ∉ l := by
  intro buf
  induction buf with
  | nil => intro l r h; simp [split_first_line] at h
  | cons c rest ih =>
    intro l r h
    simp only [split_first_line] at h
    by_cases hc : c = '\n'
    · rw [if_pos hc] at h
      simp only [Option.some.injEq, Prod.mk.injEq] at h
      obtain ⟨hl, hr⟩ := h
      subst hl; subst hr; subst hc
      exact ⟨rfl, by simp⟩
    · rw [if_neg hc] at h
      cases hsr : split_first_line rest with
      | none => rw [hsr] at h; simp at h
      | some p =>
        obtain ⟨l1, r1⟩ := p
        rw [hsr] at h
        simp only [Option.some.injEq, Prod.mk.injEq] at h
        obtain ⟨hl, hr⟩ := h
        obtain ⟨hb, hnl⟩ := ih l1 r1 hsr
        subst hl; subst hr; subst hb
        refine ⟨rfl, ?_⟩
        simp only [List.mem_cons, not_or]
        exact ⟨Ne.symm hc, hnl⟩

theorem split_of_line (x : List Char) :
    ∀ (l : List Char), '\n' ∉ l →
      split_first_line (l ++ '\n' :: x) = some (l, x) := by
  intro l
  induction l with
  | nil => intro h; simp [split_first_line]
  | cons c l1 ih =>
    intro h
    simp only [List.mem_cons, not_or] at h
    simp only [List.cons_append, split_first_line]
    rw [if_neg (fun hc => h.1 hc.symm)]
    simp only [List.append_eq]
    rw [ih h.2]

theorem sse_lines_of_none {σ : Type} (pl : σ → List Char → σ) {buf : List Char}
    (h : split_first_line buf = none) :
    ∀ fuel st, sse_lines pl fuel st buf = (st, buf) := by
  intro fuel st
  cases fuel with
  | zero => rfl
  | succ n => simp [sse_lines, h]

theorem sse_lines_fuel_irrel {σ : Type} (pl : σ → List Char → σ) :
    ∀ fuel buf st, buf.length ≤ fuel →
      sse_lines pl fuel st buf = sse_consume pl st buf := by
  intro fuel
  induction fuel using Nat.strong_induction_on with
  | _ fuel ih =>
    intro buf st h
    cases hs : split_first_line buf with
    | none => rw [sse_lines_of_none pl hs, sse_consume, sse_lines_of_none pl hs]
    | some p =>
      obtain ⟨l, r⟩ := p
      obtain ⟨hb, -⟩ := split_some_eq buf l r hs
      have hlen : buf.length = l.length + r.length + 1 := by
        subst hb; simp; omega
      cases fuel with
      | zero => omega
      | succ n =>
        have hstep : sse_lines pl (n + 1) st buf =
            sse_lines pl n (pl st (trim_cr l)) r := by
          simp only [sse_lines, hs]
        have hstep2 : sse_consume pl st buf =
            sse_lines pl (l.length + r.length) (pl st (trim_cr l)) r := by
          rw [sse_consume, hlen]
          simp only [sse_lines, hs]
        rw [hstep, hstep2,
          ih n (by omega) r (pl st (trim_cr l)) (by omega),
          ih (l.length + r.length) (by omega) r (pl st (trim_cr l)) (by omega)]

theorem sse_consume_step {σ : Type} (pl : σ → List Char → σ) {buf l r : List Char}
    (hs : split_first_line buf = some (l, r)) (st : σ) :
    sse_consume pl st buf = sse_consume pl (pl st (trim_cr l)) r := by
  obtain ⟨hb, -⟩ := split_some_eq buf l r hs
  have hlen : buf.length = l.length + r.length + 1 := by subst hb; simp; omega
  rw [sse_consume, hlen]
  simp only [sse_lines, hs]
  exact sse_lines_fuel_irrel pl (l.length + r.length) r _ (by omega)

theorem sse_consume_of_none {σ : Type} (pl : σ → List Char → σ) {buf : List Char}
    (h : split_first_line buf = none) (st : σ) :
    sse_consume pl st buf = (st, buf) :=
  sse_lines_of_none pl h _ st

theorem sse_consume_leftover {σ : Type} (pl : σ → List Char → σ) :
    ∀ fuel buf st, buf.length ≤ fuel →
      split_first_line (sse_lines pl fuel st buf).2 = none := by
  intro fuel
  induction fuel with
  | zero =>
    intro buf st h
    have : buf = [] := List.eq_nil_of_length_eq_zero (by omega)
    subst this
    rfl
  | succ n ih =>
    intro buf st h
    cases hs : split_first_line buf with
    | none => rw [sse_lines_of_none pl hs]; exact hs
    | some p =>
      obtain ⟨l, r⟩ := p
      obtain ⟨hb, -⟩ := split_some_eq buf l r hs
      have hlen : buf.length = l.length + r.length + 1 := by subst hb; simp; omega
      simp only [sse_lines, hs]
      exact ih r _ (by omega)

theorem sse_consume_append_aux {σ : Type} (pl : σ → List Char → σ) :
    ∀ (n : Nat) (a : List Char), a.length ≤ n → ∀ st (b : List Char),
      sse_consume pl st (a ++ b) =
        sse_consume pl (sse_consume pl st a).1 ((sse_consume pl st a).2 ++ b) := by
  intro n
  induction n with
  | zero =>
    intro a ha st b
    have : a = [] := List.eq_nil_of_length_eq_zero (by omega)
    subst this
    rfl
  | succ n ih =>
    intro a ha st b
    cases hs : split_first_line a with
    | none =>
      rw [sse_consume_of_none pl hs]
    | some p =>
      obtain ⟨l, r⟩ := p
      obtain ⟨hb, hnl⟩ := split_some_eq a l r hs
      have hsplit2 : split_first_line (a ++ b) = some (l, r ++ b) := by
        subst hb
        rw [List.append_assoc, List.cons_append]
        exact split_of_line (r ++ b) l hnl
      rw [sse_consume_step pl hsplit2, sse_consume_step pl hs]
      have hlen : r.length ≤ n := by
        have : a.length = l.length + r.length + 1 := by subst hb; simp; omega
        omega
      exact ih r hlen _ b

theorem sse_consume_append {σ : Type} (pl : σ → List Char → σ)
    (a : List Char) (st : σ) (b : List Char) :
    sse_consume pl st (a ++ b) =
      sse_consume pl (sse_consume pl st a).1 ((sse_consume pl st a).2 ++ b) :=
  sse_consume_append_aux pl a.length a (le_refl _) st b

theorem sse_run_eq_flatten_aux {σ : Type} (pl : σ → List Char → σ) :
    ∀ (chunks : List (List Char)) (st : σ) (buf : List Char),
      split_first_line buf = none →
      List.foldl (sse_feed pl) (st, buf) chunks =
        sse_consume pl st (buf ++ chunks.flatten) := by
  intro chunks
  induction chunks with
  | nil =>
    intro st buf h
    simp only [List.foldl_nil, List.flatten_nil, List.append_nil]
    exact (sse_consume_of_none pl h st).symm
  | cons c cs ih =>
    intro st buf h
    simp only [List.foldl_cons, List.flatten_cons]
    have hfeed : sse_feed pl (st, buf) c = sse_consume pl st (buf ++ c) := rfl
    have hleft : split_first_line (sse_consume pl st (buf ++ c)).2 = none :=
      sse_consume_leftover pl (buf ++ c).length (buf ++ c) st (le_refl _)
    rw [hfeed, ih _ _ hleft, ← List.append_assoc]
    rw [sse_consume_append pl (buf ++ c)]

theorem sse_run_eq_flatten {σ : Type} (pl : σ → List Char → σ) (init : σ)
    (chunks : List (List Char)) :
    sse_run pl init chunks = sse_consume pl init chunks.flatten := by
  unfold sse_run
  rw [sse_run_eq_flatten_aux pl chunks init [] rfl]
  rfl

/-! ## Claim theorems: risk classifier -/

/-- C2: for every bash command string the classifier splits on && and || and
returns the maximum risk over the sub-commands (the fold of the max in the
Safe < Moderate < Dangerous order, whose rank is the Nat max); in particular
the compound examples classify as Safe and Dangerous respectively. -/
theorem c2_compound_max_rule :
    (∀ command : String,
        classify_bash_command command = risk_sup (sub_commands command))
    ∧ (∀ a b : RiskLevel, (risk_max a b).rank = max a.rank b.rank)
    ∧ assess_risk "bash" "\x7b\"command\":\"ls -la && echo done\"\x7d" = RiskLevel.Safe
    ∧ assess_risk "bash" "\x7b\"command\":\"ls && rm -rf /\"\x7d" = RiskLevel.Dangerous := by
  refine ⟨fun command => ?_, fun a b => by cases a <;> cases b <;> rfl,
    by decide, by decide⟩
  unfold classify_bash_command risk_sup
  exact classify_loop_eq_foldr (sub_commands command) RiskLevel.Safe

/-- C3: for a sub-command with no denylist match, the classifier returns
Dangerous exactly when some output redirection has a nonempty target that is
not safe; the safe targets are exactly /dev/null, a file-descriptor
duplication, or a path under a recognized temp directory; in particular the
two redirect examples classify as Dangerous and Safe. -/
theorem c3_redirect_rule :
    (∀ cmd : String, deny_list_hit cmd = false →
        (classify_single_command cmd = RiskLevel.Dangerous ↔ unsafe_redirect_spec cmd))
    ∧ (∀ t : String, t ≠ "" →
        is_safe_redirect_target t = spec_safe_redirect_target t)
    ∧ assess_risk "bash" "\x7b\"command\":\"echo x > /etc/hosts\"\x7d" = RiskLevel.Dangerous
    ∧ assess_risk "bash" "\x7b\"command\":\"echo x 2>/dev/null\"\x7d" = RiskLevel.Safe := by
  refine ⟨fun cmd h => ?_, safe_target_eq_spec, by decide, by decide⟩
  rw [single_dangerous_iff_redirect cmd h, has_dangerous_redirect_iff]

theorem c3_witness :
    deny_list_hit "echo x > /etc/hosts" = false
    ∧ (classify_single_command "echo x > /etc/hosts" = RiskLevel.Dangerous ↔
        unsafe_redirect_spec "echo x > /etc/hosts") :=
  ⟨by decide, c3_redirect_rule.1 "echo x > /etc/hosts" (by decide)⟩

/-- C10: when the bash arguments are not valid JSON, or their "command"
field is missing, not a string, or the empty string, the extracted command
is empty, its sub-command list is empty, and the call is classified Safe
(so it never reaches the Dangerous confirmation gate). -/
theorem c10_invalid_args_safe (arguments : String)
    (h : (parse_json arguments).isNone = true
      ∨ (((parse_json arguments).getD Json.null).getField "command").asStr = none
      ∨ (((parse_json arguments).getD Json.null).getField "command").asStr = some "") :
    assess_risk "bash" arguments = RiskLevel.Safe ∧
      sub_commands ((((parse_json arguments).getD Json.null).getField
        "command").asStr.getD "") = [] := by
  have hcmd : (((parse_json arguments).getD Json.null).getField "command").asStr.getD "" = "" := by
    rcases h with h | h | h
    · rcases hp : parse_json arguments with - | v
      · simp [hp, Json.getField, Json.get, Json.asStr]
      · rw [hp] at h; simp at h
    · simp [h]
    · simp [h]
  constructor
  · unfold assess_risk
    rw [if_neg (by decide), if_neg (by decide), if_pos rfl]
    unfold assess_bash_risk
    simp only []
    rw [hcmd]
    decide
  · rw [hcmd]
    decide

theorem c10_witness :
    ((parse_json "not json").isNone = true
      ∨ (((parse_json "not json").getD Json.null).getField "command").asStr = none
      ∨ (((parse_json "not json").getD Json.null).getField "command").asStr = some "")
    ∧ assess_risk "bash" "not json" = RiskLevel.Safe :=
  ⟨Or.inl (by decide),
   (c10_invalid_args_safe "not json" (Or.inl (by decide))).1⟩

/-! ## Claim theorems: agent loop -/

/-- C1: a tool call assessed Dangerous whose confirmation decision is "no"
(including the default denial when no channel is attached or the channel is
closed) contributes no entry to the execution trace -- the router oracle is
never consulted for it -- and instead appends the synthetic denial
Tool-result, after which processing continues with the remaining tool calls
of the same assistant turn. -/
theorem c1_denied_dangerous_skips_execute (env : Env) (tc : ToolCall)
    (rest : List ToolCall) (msgs : List Message) (confirm : Option (List Bool))
    (hRisk : assess_risk tc.name tc.arguments = RiskLevel.Dangerous)
    (hDeny : (confirm_recv confirm).1 = false) :
    process_tool_calls env (tc :: rest) msgs confirm =
      { messages := (process_tool_calls env rest
          (msgs ++ [Message.tool_result tc.id (denial_message tc.name)])
          (confirm_recv confirm).2).messages,
        confirms := (process_tool_calls env rest
          (msgs ++ [Message.tool_result tc.id (denial_message tc.name)])
          (confirm_recv confirm).2).confirms,
        events := AgentEvent.ToolConfirm tc.name tc.arguments
            (describe_tool_call tc.name tc.arguments)
          :: AgentEvent.ToolEnd tc.name tc.arguments false
          :: (process_tool_calls env rest
              (msgs ++ [Message.tool_result tc.id (denial_message tc.name)])
              (confirm_recv confirm).2).events,
        executed := (process_tool_calls env rest
          (msgs ++ [Message.tool_result tc.id (denial_message tc.name)])
          (confirm_recv confirm).2).executed } := by
  simp only [process_tool_calls]
  rw [if_pos hRisk, if_pos hDeny]

theorem c1_witness :
    assess_risk "bash" rmrf_args = RiskLevel.Dangerous
    ∧ process_tool_calls env_tool_spam [⟨"id9", "bash", rmrf_args⟩] [] none =
      { messages := [Message.tool_result "id9" (denial_message "bash")],
        confirms := none,
        events := [AgentEvent.ToolConfirm "bash" rmrf_args
            (describe_tool_call "bash" rmrf_args),
          AgentEvent.ToolEnd "bash" rmrf_args false],
        executed := [] } :=
  ⟨by decide,
   c1_denied_dangerous_skips_execute env_tool_spam ⟨"id9", "bash", rmrf_args⟩
     [] [] none (by decide) rfl⟩

/-- C4: with an iteration cap of N and a model that answers every request
with at least one tool call, the loop performs exactly N model calls and
then returns the synthetic stop message as an Ok value, not an error. -/
theorem c4_iteration_cap (cw maxI : Nat) (env : Env) (msgs0 : List Message)
    (user : String) (confirm : Option (List Bool)) (_hN : 1 ≤ maxI)
    (hTools : ∀ m, ∃ r, env.llm m = Except.ok r ∧ r.tool_calls ≠ []) :
    (process_message cw maxI env msgs0 user confirm).result =
      Except.ok (stop_message maxI)
    ∧ (process_message cw maxI env msgs0 user confirm).snapshots.length = maxI := by
  unfold process_message
  exact loop_spam env maxI hTools maxI _ confirm

theorem c4_witness :
    (1 : Nat) ≤ 2
    ∧ (process_message 1000000 2 env_tool_spam [] "hi" none).result =
        Except.ok (stop_message 2)
    ∧ (process_message 1000000 2 env_tool_spam [] "hi" none).snapshots.length = 2 :=
  ⟨by decide,
   (c4_iteration_cap 1000000 2 env_tool_spam [] "hi" none (by decide)
     (fun _ => ⟨⟨"", [⟨"id1", "bash", "\x7b\x7d"⟩]⟩, rfl, by decide⟩)).1,
   (c4_iteration_cap 1000000 2 env_tool_spam [] "hi" none (by decide)
     (fun _ => ⟨⟨"", [⟨"id1", "bash", "\x7b\x7d"⟩]⟩, rfl, by decide⟩)).2⟩

/-- C9: a failing tool execution is never fatal: whether the call was
unconfirmed or an approved Dangerous call, the router error is converted
into a Tool message reading "Error: " plus the error text, processing
continues with the remaining calls, and a process_message error can only
ever originate from the LLM call, never from a tool. -/
theorem c9_tool_errors_not_fatal :
    (∀ (env : Env) (tc : ToolCall) (rest : List ToolCall) (msgs : List Message)
        (confirm : Option (List Bool)) (err : String),
      assess_risk tc.name tc.arguments ≠ RiskLevel.Dangerous →
      env.router tc.name tc.arguments = Except.error err →
      process_tool_calls env (tc :: rest) msgs confirm =
        { messages := (process_tool_calls env rest
            (msgs ++ [Message.tool_result tc.id ("Error: " ++ err)]) confirm).messages,
          confirms := (process_tool_calls env rest
            (msgs ++ [Message.tool_result tc.id ("Error: " ++ err)]) confirm).confirms,
          events := AgentEvent.ToolStart tc.name tc.arguments
            :: AgentEvent.ToolEnd tc.name tc.arguments false
            :: (process_tool_calls env rest
                (msgs ++ [Message.tool_result tc.id ("Error: " ++ err)]) confirm).events,
          executed := (tc.name, tc.arguments) :: (process_tool_calls env rest
            (msgs ++ [Message.tool_result tc.id ("Error: " ++ err)]) confirm).executed })
    ∧ (∀ (env : Env) (tc : ToolCall) (rest : List ToolCall) (msgs : List Message)
        (confirm : Option (List Bool)) (err : String),
      assess_risk tc.name tc.arguments = RiskLevel.Dangerous →
      (confirm_recv confirm).1 = true →
      env.router tc.name tc.arguments = Except.error err →
      process_tool_calls env (tc :: rest) msgs confirm =
        { messages := (process_tool_calls env rest
            (msgs ++ [Message.tool_result tc.id ("Error: " ++ err)])
            (confirm_recv confirm).2).messages,
          confirms := (process_tool_calls env rest
            (msgs ++ [Message.tool_result tc.id ("Error: " ++ err)])
            (confirm_recv confirm).2).confirms,
          events := AgentEvent.ToolConfirm tc.name tc.arguments
              (describe_tool_call tc.name tc.arguments)
            :: AgentEvent.ToolStart tc.name tc.arguments
            :: AgentEvent.ToolEnd tc.name tc.arguments false
            :: (process_tool_calls env rest
                (msgs ++ [Message.tool_result tc.id ("Error: " ++ err)])
                (confirm_recv confirm).2).events,
          executed := (tc.name, tc.arguments) :: (process_tool_calls env rest
            (msgs ++ [Message.tool_result tc.id ("Error: " ++ err)])
            (confirm_recv confirm).2).executed })
    ∧ (∀ (cw maxI : Nat) (env : Env) (msgs0 : List Message) (user : String)
        (confirm : Option (List Bool)) (e : String),
      (process_message cw maxI env msgs0 user confirm).result = Except.error e →
      ∃ m c, env.llm m = Except.error c ∧
        e = "LLM streaming call failed: " ++ c) := by
  refine ⟨?_, ?_, ?_⟩
  · intro env tc rest msgs confirm err hRisk hFail
    simp only [process_tool_calls]
    rw [if_neg hRisk, hFail]
  · intro env tc rest msgs confirm err hRisk hYes hFail
    simp only [process_tool_calls]
    rw [if_pos hRisk, if_neg (by simp [hYes]), hFail]
  · intro cw maxI env msgs0 user confirm e h
    exact loop_error_only_from_llm env maxI maxI _ confirm e h

theorem c9_witness :
    assess_risk "bash" "\x7b\x7d" ≠ RiskLevel.Dangerous
    ∧ env_router_fails.router "bash" "\x7b\x7d" = Except.error "boom"
    ∧ process_tool_calls env_router_fails [⟨"id1", "bash", "\x7b\x7d"⟩] [] none =
      { messages := [Message.tool_result "id1" ("Error: " ++ "boom")],
        confirms := none,
        events := [AgentEvent.ToolStart "bash" "\x7b\x7d",
          AgentEvent.ToolEnd "bash" "\x7b\x7d" false],
        executed := [("bash", "\x7b\x7d")] } :=
  ⟨by decide, rfl,
   c9_tool_errors_not_fatal.1 env_router_fails ⟨"id1", "bash", "\x7b\x7d"⟩
     [] [] none "boom" (by decide) rfl⟩

/-- C8: a fresh transcript has the System message at index 0, compaction
never changes the head of the transcript, and every transcript produced by
process_message (the final one and every model-call snapshot) keeps the
original head message. -/
theorem c8_system_head :
    (∀ p : String, (agent_new_messages p).head? = some (Message.system p))
    ∧ (∀ limit msgs, (compact_context limit msgs).head? = msgs.head?)
    ∧ (∀ (cw maxI : Nat) (env : Env) (msgs0 : List Message) (user : String)
        (confirm : Option (List Bool)) (m : Message), msgs0.head? = some m →
      (process_message cw maxI env msgs0 user confirm).messages.head? = some m
      ∧ ((process_message cw maxI env msgs0 user confirm).snapshots.all
          fun s => decide (s.head? = some m)) = true) := by
  refine ⟨fun p => rfl, compact_context_head, ?_⟩
  intro cw maxI env msgs0 user confirm m hm
  unfold process_message
  dsimp only []
  have h1 : (compact_context cw (msgs0 ++ [Message.user user])).head? = some m := by
    rw [compact_context_head]; exact head?_append_of_some hm
  obtain ⟨⟨suf, hsuf⟩, hsnaps⟩ := loop_messages_extend env maxI maxI
    (compact_context cw (msgs0 ++ [Message.user user])) confirm
  constructor
  · rw [hsuf]; exact head?_append_of_some h1
  · rw [List.all_eq_true]
    intro s hs
    obtain ⟨suf2, hsuf2⟩ := hsnaps s hs
    rw [hsuf2]
    simp [head?_append_of_some h1]

theorem c8_witness :
    ([Message.system "sys"] : List Message).head? = some (Message.system "sys")
    ∧ (process_message 1000000 2 env_tool_spam [Message.system "sys"] "hi"
        none).messages.head? = some (Message.system "sys") :=
  ⟨rfl,
   (c8_system_head.2.2 1000000 2 env_tool_spam [Message.system "sys"] "hi" none
     (Message.system "sys") rfl).1⟩

/-- C6 counterexample: the claim quantifies over every transcript state the
agent loop can reach, but compaction evicts oldest-first with no awareness
of tool-call grouping; after one tool round, a second process_message call
with context window 30 drops the User and Assistant messages and leaves the
orphaned Tool result, so the first model call of the second turn sees a
transcript violating the pairing invariant. -/
theorem c6_pairing_counterexample :
    pairing_run_2.snapshots ≠ []
    ∧ well_paired (pairing_run_2.snapshots.headD []) = false := by
  exact ⟨by decide, by decide⟩

/-- C6 amended: provided compaction evicts nothing on entry (the transcript
is under the threshold), every Tool message in every model-call transcript
and in the final transcript references a ToolCall of the immediately
preceding Assistant message, with exactly one Tool message per ToolCall, in
order, before the next message of another role. -/
theorem c6_pairing_amended (cw maxI : Nat) (env : Env) (msgs0 : List Message)
    (user : String) (confirm : Option (List Bool))
    (hWP : well_paired msgs0 = true)
    (hNC : compact_context cw (msgs0 ++ [Message.user user]) =
      msgs0 ++ [Message.user user]) :
    ((process_message cw maxI env msgs0 user confirm).snapshots.all
      well_paired) = true
    ∧ well_paired (process_message cw maxI env msgs0 user confirm).messages
      = true := by
  unfold process_message
  dsimp only []
  rw [hNC]
  exact loop_snapshots_paired env maxI maxI _ confirm
    (well_paired_append_user msgs0 user hWP)

theorem c6_witness :
    well_paired [Message.system "sys"] = true
    ∧ compact_context 1000000 ([Message.system "sys"] ++ [Message.user "hi"]) =
        [Message.system "sys"] ++ [Message.user "hi"]
    ∧ well_paired (process_message 1000000 2 env_tool_spam
        [Message.system "sys"] "hi" none).messages = true :=
  ⟨by decide, by decide,
   (c6_pairing_amended 1000000 2 env_tool_spam [Message.system "sys"] "hi" none
     (by decide) (by decide)).2⟩

/-- C7 counterexample: compaction runs once per process_message, before the
first model call only.  In this run the second model call receives a
four-message transcript whose estimate (60) exceeds the threshold (25), and
compaction applied to it would shrink it -- so compaction was not applied
before the model call of that iteration, contradicting the per-iteration claim. -/
theorem c7_per_iteration_counterexample :
    2 < (big_args_run.snapshots.getD 1 []).length
    ∧ compaction_threshold 30 <
        estimate_context_tokens (big_args_run.snapshots.getD 1 [])
    ∧ compact_context 30 (big_args_run.snapshots.getD 1 []) ≠
        big_args_run.snapshots.getD 1 [] := by
  exact ⟨by decide, by decide, by decide⟩

/-- C7 amended: compaction is applied once per process_message call, before
the first model call: the transcript of the first model call is exactly the
compacted entry transcript; compaction is the identity when the estimate
(content length / 3 plus 10 per tool call plus 4 per message) is at most
85% of the context window, otherwise it drops the oldest non-system message
one at a time -- leaving the result either under the threshold or with only
2 messages -- and the number of dropped messages is minimal: dropping any
fewer would leave the estimate over the threshold with more than 2 messages. -/
theorem c7_compaction_amended :
    (∀ (cw maxI : Nat) (env : Env) (msgs0 : List Message) (user : String)
        (confirm : Option (List Bool)), 1 ≤ maxI →
      (process_message cw maxI env msgs0 user confirm).snapshots.head? =
        some (compact_context cw (msgs0 ++ [Message.user user])))
    ∧ (∀ limit msgs,
        estimate_context_tokens msgs ≤ compaction_threshold limit →
        compact_context limit msgs = msgs)
    ∧ (∀ limit msgs,
        estimate_context_tokens (compact_context limit msgs) ≤
          compaction_threshold limit
        ∨ (compact_context limit msgs).length ≤ 2)
    ∧ (∀ limit (m0 : Message) rest, ∃ k,
        compact_context limit (m0 :: rest) = m0 :: rest.drop k
        ∧ ∀ j, j < k → 2 < (m0 :: rest.drop j).length
            ∧ compaction_threshold limit <
                estimate_context_tokens (m0 :: rest.drop j)) := by
  refine ⟨?_, ?_, ?_, ?_⟩
  · intro cw maxI env msgs0 user confirm hN
    unfold process_message
    dsimp only []
    obtain ⟨k, rfl⟩ : ∃ k, maxI = k + 1 :=
      ⟨maxI - 1, by omega⟩
    cases hllm : env.llm (compact_context cw (msgs0 ++ [Message.user user])) with
    | error c => simp [process_loop, hllm]
    | ok r =>
      by_cases htc : r.tool_calls ≠ []
      · simp [process_loop, hllm, htc]
      · simp [process_loop, hllm, htc]
  · intro limit msgs h
    unfold compact_context
    dsimp only []
    rw [if_pos h]
  · intro limit msgs
    unfold compact_context
    dsimp only []
    split
    · left; assumption
    · exact compact_loop_post _ _ msgs (le_refl _)
  · intro limit m0 rest
    unfold compact_context
    dsimp only []
    split
    · exact ⟨0, rfl, by omega⟩
    · exact compact_loop_drop _ _ m0 rest (by simp)

theorem c7_witness :
    (1 : Nat) ≤ 5
    ∧ big_args_run.snapshots.head? =
        some (compact_context 30 ([Message.system "sys"] ++ [Message.user "hello"])) :=
  ⟨by decide,
   c7_compaction_amended.1 30 5 env_big_args [Message.system "sys"] "hello" none
     (by decide)⟩

/-! ## Claim theorems: streaming parsers -/

set_option maxRecDepth 100000 in
/-- C5: for every byte-chunking of the fixture event streams -- any split of
the bytes into network chunks, including boundaries inside a line -- both
streaming parsers reconstruct content "Hello, world!" from the text deltas
in arrival order and exactly one ToolCall whose argument fragments, split
across three chunks, concatenate losslessly. -/
theorem c5_streaming_reconstruction :
    (∀ chunks : List (List Char), chunks.flatten = anthropic_stream_data →
      anthropic_stream_response chunks =
        ⟨"Hello, world!", [⟨"toolu_1", "bash", expected_arguments⟩]⟩)
    ∧ (∀ chunks : List (List Char), chunks.flatten = openai_stream_data →
      openai_stream_response chunks =
        ⟨"Hello, world!", [⟨"call_1", "bash", expected_arguments⟩]⟩) := by
  constructor
  · intro chunks h
    unfold anthropic_stream_response
    rw [sse_run_eq_flatten, h]
    decide
  · intro chunks h
    unfold openai_stream_response
    rw [sse_run_eq_flatten, h]
    decide

set_option maxRecDepth 100000 in
theorem c5_witness :
    anthropic_chunking.flatten = anthropic_stream_data
    ∧ openai_chunking.flatten = openai_stream_data
    ∧ anthropic_stream_response anthropic_chunking =
        ⟨"Hello, world!", [⟨"toolu_1", "bash", expected_arguments⟩]⟩
    ∧ openai_stream_response openai_chunking =
        ⟨"Hello, world!", [⟨"call_1", "bash", expected_arguments⟩]⟩ :=
  ⟨by decide, by decide,
   c5_streaming_reconstruction.1 anthropic_chunking (by decide),
   c5_streaming_reconstruction.2 openai_chunking (by decide)⟩

end Miniclaw
